import Mathlib

/-!
Verification of the simple stock simulator (Python sources: `trading.py`,
`services/prices.py`, `app.py`) against its natural-language specification.

Modelling conventions (shallow embedding):
* Python `float` arithmetic is modelled in exact rational arithmetic (`ℚ`);
  numeric literals such as `1e-9` or `0.0005` become the corresponding
  rationals.  Where the finite/NaN/Infinity distinction of IEEE floats is
  itself the subject of a claim, a dedicated `PyFloat` type is used.
* Python `dict` is modelled as an association list `List (String × α)` in
  insertion order: assignment to an existing key updates it in place,
  assignment to a fresh key appends it at the end, deletion removes it.
  Well-formed dictionaries have no duplicate keys.
* `datetime.date` is modelled by its proleptic ordinal, a natural number;
  `date + timedelta(days=1)` becomes `d + 1`.
* A mutating Python method that may `raise` is embedded as a function
  returning `Except String Unit × State`: the second component is the state
  of the object when the method returns or raises, so statements executed
  before a `raise` are visible in the error branch (this is what makes
  atomicity claims meaningful).
* `random.gauss(0, 1)` draws are supplied by an ambient stream
  `gauss : ℕ → ℚ` together with a counter for the next draw, and `math.exp`
  is an ambient function `rexp : ℚ → ℚ`: the claims under verification do
  not depend on the numeric values of either.
* `self.save()` performs file I/O and does not change observable in-memory
  state; it is the identity in the embedding.  `Portfolio.load` is modelled
  as a pure function of the already-parsed durable record.
-/

namespace StockSim

/-- Python `str.upper()`, character-wise uppercasing (symbols in this code
base are ASCII, where Python and Unicode simple uppercasing agree). -/
def pyUpper (s : String) : String := ⟨s.data.map Char.toUpper⟩

/-- Python `str.strip()`: drop leading and trailing whitespace. -/
def pyStrip (s : String) : String :=
  ⟨((s.data.dropWhile Char.isWhitespace).reverse.dropWhile
      Char.isWhitespace).reverse⟩

/-! ### Python dict as an association list -/

/-- `d.get(k, 0)` on a `defaultdict(int)`-backed holdings dict. -/
def getA (h : List (String × Int)) (k : String) : Int :=
  match h.lookup k with
  | some v => v
  | none => 0

/-- `d[k]` lookup result (present or not). -/
def lookupA {α : Type} (h : List (String × α)) (k : String) : Option α :=
  h.lookup k

/-- `d[k] = v`: update in place if the key exists, append otherwise. -/
def setA {α : Type} (h : List (String × α)) (k : String) (v : α) :
    List (String × α) :=
  match h with
  | [] => [(k, v)]
  | (k', v') :: t => if k' = k then (k, v) :: t else (k', v') :: setA t k v

/-- `del d[k]`: remove the entry for `k` (dicts have at most one). -/
def delA {α : Type} (h : List (String × α)) (k : String) :
    List (String × α) :=
  match h with
  | [] => []
  | (k', v') :: t => if k' = k then t else (k', v') :: delA t k

/-! ### Trades and dates -/

/-- Result of `Portfolio._format_date`: `None` becomes today's real-world
date, a date-like value becomes its ISO string (identified here with the
date's ordinal). -/
inductive FDate where
  | today : FDate
  | iso : ℕ → FDate
deriving DecidableEq, Repr

/-- `Portfolio._format_date` on an optional date-like argument. -/
def formatDate : Option ℕ → FDate
  | none => FDate.today
  | some d => FDate.iso d

/-- One entry of `trade_history`:
`{"date": ..., "type": "BUY"|"SELL", "symbol": ..., "qty": ..., "price": ...}`. -/
structure Trade where
  date : FDate
  type : String
  symbol : String
  qty : Int
  price : ℚ
deriving DecidableEq, Repr

/-! ### The Portfolio (Ledger) -/

/-- In-memory state of `trading.Portfolio`. -/
structure Portfolio where
  cash : ℚ
  holdings : List (String × Int)
  trade_history : List Trade
deriving DecidableEq, Repr

/-- `Portfolio.__init__(cash=10000.0)`. -/
def Portfolio.init (cash : ℚ := 10000) : Portfolio :=
  { cash := cash, holdings := [], trade_history := [] }

/-- The `1e-9` cash tolerance used by `Portfolio.buy`. -/
def cashEps : ℚ := 1 / 1000000000

/-- `Portfolio.buy(symbol, price, qty, date)`.  The pair's second component
is the portfolio state at return or raise time; `self.save()` is observable
state identity. -/
def Portfolio.buy (p : Portfolio) (symbol : Option String) (price : ℚ)
    (qty : Int) (date : Option ℕ) : Except String Unit × Portfolio :=
  match symbol with
  | none => (Except.error "Symbol required", p)
  | some s0 =>
    let symbol := pyUpper s0
    -- `qty = int(qty)` cannot fail: `qty` is already an integer here
    if qty ≤ 0 then (Except.error "Quantity must be > 0", p)
    else
      let cost := price * qty
      if cost > p.cash + cashEps then (Except.error "Not enough cash", p)
      else
        let p1 : Portfolio :=
          { cash := p.cash - cost
            holdings := setA p.holdings symbol (getA p.holdings symbol + qty)
            trade_history := p.trade_history ++
              [{ date := formatDate date, type := "BUY", symbol := symbol,
                 qty := qty, price := price }] }
        (Except.ok (), p1)

/-- `Portfolio.sell(symbol, price, qty, date)`. -/
def Portfolio.sell (p : Portfolio) (symbol : Option String) (price : ℚ)
    (qty : Int) (date : Option ℕ) : Except String Unit × Portfolio :=
  match symbol with
  | none => (Except.error "Symbol required", p)
  | some s0 =>
    let symbol := pyUpper s0
    if qty ≤ 0 then (Except.error "Quantity must be > 0", p)
    else
      let owned := getA p.holdings symbol
      if qty > owned then (Except.error "Not enough shares to sell", p)
      else
        let revenue := price * qty
        let newQty := owned - qty
        let holdings' :=
          if newQty ≤ 0 then
            -- remove symbol entirely if zero or negative
            if (lookupA p.holdings symbol).isSome then delA p.holdings symbol
            else p.holdings
          else setA p.holdings symbol newQty
        let p1 : Portfolio :=
          { cash := p.cash + revenue
            holdings := holdings'
            trade_history := p.trade_history ++
              [{ date := formatDate date, type := "SELL", symbol := symbol,
                 qty := qty, price := price }] }
        (Except.ok (), p1)

/-! ### Persistence (`Portfolio.load` / `Portfolio.save`) -/

/-- The durable record `data/portfolio.json`, after JSON parsing: a field is
`none` when its key is absent from the record.  JSON numbers that survive
Python's `int()` are integers, so holding quantities are modelled as `Int`;
a present-but-falsy (`null`) value of `holdings`/trade keys behaves like an
absent one and is covered by the `none` case. -/
structure Record where
  cash : Option ℚ
  holdings : Option (List (String × Int))
  trade_history : Option (List Trade)
  trades : Option (List Trade)
deriving DecidableEq, Repr

/-- The holdings-filling loop of `Portfolio.load`: keys normalised to
uppercase, values through `int()` (the identity on integers; the
`except: continue` branch only fires for non-integer JSON values, which the
typed record excludes). -/
def loadHoldings (hs : List (String × Int)) : List (String × Int) :=
  hs.foldl (fun acc kv => setA acc (pyUpper kv.1) kv.2) []

/-- `data.get("trade_history", []) or data.get("trades", []) or []`:
Python `or` takes the first truthy operand, and an empty list is falsy. -/
def loadTrades (data : Record) : List Trade :=
  let th := data.trade_history.getD []
  if th.isEmpty then data.trades.getD [] else th

/-- `Portfolio.load` on a present, well-formed record (the absent-file
bootstrap branch returns `Portfolio.init` and is not taken here). -/
def Portfolio.load (data : Record) : Portfolio :=
  { cash := data.cash.getD 10000
    holdings := loadHoldings (data.holdings.getD [])
    trade_history := loadTrades data }

/-- `Portfolio.save`: writes `cash`, `holdings` and `trade_history`; the
legacy `trades` key is never written. -/
def Portfolio.save (p : Portfolio) : Record :=
  { cash := some p.cash, holdings := some p.holdings
    trade_history := some p.trade_history, trades := none }

/-! ### Stocks and the market (`services/prices.py`) -/

/-- In-memory state of `prices.Stock` (rational-valued). -/
structure Stock where
  symbol : String
  price : ℚ
  mu : ℚ
  sigma : ℚ
  history : List (ℕ × ℚ)
deriving DecidableEq, Repr

/-- `Stock.__init__(symbol, price, mu=0.0005, sigma=0.02)`. -/
def Stock.init (symbol : String) (price : ℚ) (mu : ℚ := 1/2000)
    (sigma : ℚ := 1/50) : Stock :=
  { symbol := pyUpper symbol, price := price, mu := mu, sigma := sigma
    history := [] }

/-- Capacity of the history deque (`deque(maxlen=10000)`). -/
def dequeMaxlen : ℕ := 10000

/-- Keep at most the last `dequeMaxlen` entries. -/
def truncC (h : List (ℕ × ℚ)) : List (ℕ × ℚ) :=
  h.drop (h.length - dequeMaxlen)

/-- Appending to a `deque(maxlen=10000)`: the oldest entry is evicted when
the deque is full. -/
def dequeAppend (h : List (ℕ × ℚ)) (e : ℕ × ℚ) : List (ℕ × ℚ) :=
  truncC (h ++ [e])

/-- `Stock.record(date)`. -/
def Stock.record (s : Stock) (date : ℕ) : Stock :=
  { s with history := dequeAppend s.history (date, s.price) }

/-- The multiplicative factor of one GBM step of `Stock.simulate_day`, for
the ambient `math.exp` model `rexp` and the drawn `eps`; `dt = 1.0`, and
`math.sqrt(1.0) = 1.0` exactly. -/
def gbmFactor (rexp : ℚ → ℚ) (mu sigma eps : ℚ) : ℚ :=
  let dt : ℚ := 1
  let drift := (mu - 1/2 * sigma * sigma) * dt
  let diffusion := sigma * 1 * eps
  rexp (drift + diffusion)

/-- `Stock.simulate_day()` with the drawn `eps` made explicit. -/
def Stock.simulate_day (rexp : ℚ → ℚ) (s : Stock) (eps : ℚ) : Stock :=
  { s with price := s.price * gbmFactor rexp s.mu s.sigma eps }

/-- In-memory state of `prices.Market`; `stocks` is a Python dict in
insertion order, `date` the ordinal of the simulated date. -/
structure Market where
  stocks : List (String × Stock)
  date : ℕ
deriving DecidableEq, Repr

/-- `Market.add_stock(stock)`: insert under the uppercased symbol, then
record the initial price at the market date. -/
def Market.add_stock (m : Market) (s : Stock) : Market :=
  let key := pyUpper s.symbol
  { m with stocks := setA m.stocks key (s.record m.date) }

/-- One iteration of the day loop of `Market.simulate_days`: advance the
date, then one GBM step plus record per stock, in dict order, drawing
`gauss idx`, `gauss (idx+1)`, ... in sequence. -/
def marketDay (rexp : ℚ → ℚ) (gauss : ℕ → ℚ) (m : Market) (idx : ℕ) :
    Market × ℕ :=
  let date' := m.date + 1
  let stocks' := m.stocks.enum.map fun je =>
    (je.2.1, Stock.record (Stock.simulate_day rexp je.2.2 (gauss (idx + je.1))) date')
  ({ stocks := stocks', date := date' }, idx + m.stocks.length)

/-- `for _ in range(days)` around `marketDay`. -/
def iterDays (rexp : ℚ → ℚ) (gauss : ℕ → ℚ) : ℕ → Market × ℕ → Market × ℕ
  | 0, s => s
  | n + 1, s => iterDays rexp gauss n (marketDay rexp gauss s.1 s.2)

/-- `Market.simulate_days(days)`: `days = int(days)` is the identity on an
integer argument; `days <= 0` returns with no change. -/
def Market.simulate_days (rexp : ℚ → ℚ) (gauss : ℕ → ℚ) (m : Market)
    (idx : ℕ) (days : Int) : Market × ℕ :=
  if days ≤ 0 then (m, idx)
  else iterDays rexp gauss days.toNat (m, idx)

/-- The `eps` draws stock number `j` (of `n`) receives over `N` simulated
days, when the day loop starts at RNG position `idx`: day-major order —
on day `k` the stocks consume draws `idx + k*n`, `idx + k*n + 1`, ...,
so day `k` is fully applied to all stocks before day `k+1` begins. -/
def epsSeq (gauss : ℕ → ℚ) (idx n j N : ℕ) : List ℚ :=
  (List.range N).map fun k => gauss (idx + (k * n + j))

/-- Price of one stock after successive GBM steps with the given draws. -/
def gbmP (rexp : ℚ → ℚ) (mu sigma : ℚ) (p : ℚ) (epss : List ℚ) : ℚ :=
  epss.foldl (fun q e => q * gbmFactor rexp mu sigma e) p

/-- The (date, price) entries one stock generates over successive simulated
days: starting from price `p` on date `d`, day `i` contributes the entry
`(d + i, price after i GBM steps)`. -/
def traceFrom (rexp : ℚ → ℚ) (mu sigma : ℚ) :
    ℚ → ℕ → List ℚ → List (ℕ × ℚ)
  | _, _, [] => []
  | p, d, e :: es =>
    (d + 1, p * gbmFactor rexp mu sigma e) ::
      traceFrom rexp mu sigma (p * gbmFactor rexp mu sigma e) (d + 1) es

/-! ### API handlers (`app.py`), after JSON parsing -/

/-- `api_addstock`: `symbol = (j.get("symbol") or "").strip().upper()`,
emptiness and duplicate checks, then `float` parses (a numeric input is
`some`, `mu`/`sigma` default when absent), then `Stock(...)` and
`add_stock`. -/
def api_addstock (m : Market) (symbolInput : Option String)
    (priceInput : Option ℚ) (muInput sigmaInput : Option ℚ) :
    Except String Unit × Market :=
  let symbol := pyUpper (pyStrip (symbolInput.getD ""))
  if symbol = "" then (Except.error "symbol is required", m)
  else if (lookupA m.stocks symbol).isSome then
    (Except.error "stock already exists", m)
  else
    match priceInput with
    | none => (Except.error "price must be a number", m)
    | some price =>
      let mu := muInput.getD (1/2000)
      let sigma := sigmaInput.getD (1/50)
      (Except.ok (), m.add_stock (Stock.init symbol price mu sigma))

/-- `api_next` on an integer `days` argument (the `int()` parse failure
branch concerns non-integer inputs only). -/
def api_next (rexp : ℚ → ℚ) (gauss : ℕ → ℚ) (m : Market) (idx : ℕ)
    (days : Int) : Except String Unit × (Market × ℕ) :=
  if days < 1 then (Except.error "days must be >= 1", (m, idx))
  else if days > 3650 then (Except.error "days too large (max 3650)", (m, idx))
  else (Except.ok (), Market.simulate_days rexp gauss m idx days)

/-! ### Float-domain model of `Stock.__init__` (for finiteness claims) -/

/-- IEEE-style Python float values: finite (of some rational value), NaN,
or a signed infinity. -/
inductive PyFloat where
  | finite : ℚ → PyFloat
  | nan : PyFloat
  | inf : PyFloat
  | ninf : PyFloat
deriving DecidableEq, Repr

/-- Python `float(x)` on a value that is already a float: the identity —
it raises on no float, NaN and infinities included. -/
def pyFloat (x : PyFloat) : PyFloat := x

/-- `prices.Stock` at float precision. -/
structure StockF where
  symbol : String
  price : PyFloat
  mu : PyFloat
  sigma : PyFloat
  history : List (ℕ × PyFloat)
deriving DecidableEq, Repr

/-- `Stock.__init__` at float precision, exactly as written: `float()`
coercions and no finiteness validation of any kind. -/
def StockF.init (symbol : String) (price : PyFloat)
    (mu : PyFloat := PyFloat.finite (1/2000))
    (sigma : PyFloat := PyFloat.finite (1/50)) : StockF :=
  { symbol := pyUpper symbol, price := pyFloat price, mu := pyFloat mu
    sigma := pyFloat sigma, history := [] }

/-- Every stored holding quantity is strictly positive — the holdings
invariant claimed by the specification. -/
def holdingsPos (h : List (String × Int)) : Prop := ∀ e ∈ h, 0 < e.2

instance (h : List (String × Int)) : Decidable (holdingsPos h) := by
  unfold holdingsPos
  infer_instance

/-- A fixed trade record used in concrete persistence scenarios. -/
def sampleTrade : Trade :=
  { date := FDate.iso 1, type := "BUY", symbol := "ABC", qty := 1, price := 1 }

/-- A fixed stock used in concrete market scenarios. -/
def stockA : Stock :=
  { symbol := "A", price := 100, mu := 1, sigma := 1, history := [] }

/-- A one-stock market used in concrete market scenarios. -/
def marketA : Market := { stocks := [("A", stockA)], date := 0 }

/-- A fixed stock with a three-letter symbol. -/
def stockABC : Stock :=
  { symbol := "ABC", price := 100, mu := 1, sigma := 1, history := [] }

/-- A one-stock market listing `"ABC"`. -/
def marketABC : Market := { stocks := [("ABC", stockABC)], date := 0 }

end StockSim

namespace StockSim

/-! ### Sanity examples (concrete executions of the embedded code) -/

example :
    (Portfolio.init.buy (some "abc") 10 3 (some 5)).2.cash = 9970 := by
  simp [Portfolio.buy, Portfolio.init, cashEps, getA, setA, pyUpper]
  norm_num

example :
    (Portfolio.init.buy (some "abc") 10 3 (some 5)).2.holdings =
      [("ABC", 3)] := by
  simp [Portfolio.buy, Portfolio.init, cashEps, getA, setA, pyUpper]
  norm_num

example :
    (Portfolio.init.sell (some "abc") 10 3 (some 5)).1 =
      Except.error "Not enough shares to sell" := by
  simp [Portfolio.sell, Portfolio.init, getA, pyUpper]

/-! ### Association-list lemmas -/

theorem lookup_setA_self {α : Type} (h : List (String × α)) (k : String)
    (v : α) : List.lookup k (setA h k v) = some v := by
  induction h with
  | nil => simp [setA, List.lookup]
  | cons e t ih =>
    obtain ⟨k', v'⟩ := e
    by_cases hk : k' = k
    · subst hk
      simp [setA, List.lookup]
    · have hb : (k == k') = false := beq_eq_false_iff_ne.mpr (Ne.symm hk)
      simp [setA, hk, List.lookup, hb, ih]

theorem lookup_setA_ne {α : Type} (h : List (String × α)) (k k'' : String)
    (v : α) (hne : k'' ≠ k) :
    List.lookup k'' (setA h k v) = List.lookup k'' h := by
  have hb : (k'' == k) = false := beq_eq_false_iff_ne.mpr hne
  induction h with
  | nil => simp [setA, List.lookup, hb]
  | cons e t ih =>
    obtain ⟨k', v'⟩ := e
    by_cases hk : k' = k
    · subst hk
      simp [setA, List.lookup, hb]
    · simp [setA, hk, List.lookup, ih]

theorem mem_setA {α : Type} (h : List (String × α)) (k : String) (v : α)
    (e : String × α) (he : e ∈ setA h k v) : e ∈ h ∨ e = (k, v) := by
  induction h with
  | nil =>
    simp [setA] at he
    exact Or.inr he
  | cons e' t ih =>
    obtain ⟨k', v'⟩ := e'
    by_cases hk : k' = k
    · subst hk
      simp [setA] at he
      rcases he with he | he
      · exact Or.inr he
      · exact Or.inl (List.mem_cons_of_mem _ he)
    · simp [setA, hk] at he
      rcases he with he | he
      · exact Or.inl (by simp [he])
      · rcases ih he with h1 | h1
        · exact Or.inl (List.mem_cons_of_mem _ h1)
        · exact Or.inr h1

theorem mem_delA {α : Type} (h : List (String × α)) (k : String)
    (e : String × α) (he : e ∈ delA h k) : e ∈ h := by
  induction h with
  | nil => simp [delA] at he
  | cons e' t ih =>
    obtain ⟨k', v'⟩ := e'
    by_cases hk : k' = k
    · subst hk
      simp [delA] at he
      exact List.mem_cons_of_mem _ he
    · simp [delA, hk] at he
      rcases he with he | he
      · simp [he]
      · exact List.mem_cons_of_mem _ (ih he)

theorem setA_of_not_mem_keys {α : Type} (h : List (String × α)) (k : String)
    (v : α) (hk : k ∉ h.map Prod.fst) : setA h k v = h ++ [(k, v)] := by
  induction h with
  | nil => simp [setA]
  | cons e t ih =>
    obtain ⟨k', v'⟩ := e
    rw [List.map_cons] at hk
    have h1 : k ≠ k' := fun h => hk (h ▸ List.mem_cons_self _ _)
    have h2 : k ∉ t.map Prod.fst := fun h => hk (List.mem_cons_of_mem _ h)
    simp [setA, Ne.symm h1, ih h2]

theorem lookup_mem {α : Type} (h : List (String × α)) (k : String) (v : α)
    (hl : List.lookup k h = some v) : (k, v) ∈ h := by
  induction h with
  | nil => simp [List.lookup] at hl
  | cons e t ih =>
    obtain ⟨k', v'⟩ := e
    by_cases hk : k = k'
    · subst hk
      simp [List.lookup] at hl
      simp [hl]
    · have hb : (k == k') = false := beq_eq_false_iff_ne.mpr hk
      simp [List.lookup, hb] at hl
      exact List.mem_cons_of_mem _ (ih hl)

theorem getA_setA_self (h : List (String × Int)) (k : String) (v : Int) :
    getA (setA h k v) k = v := by
  simp [getA, lookup_setA_self]

theorem getA_setA_ne (h : List (String × Int)) (k k'' : String) (v : Int)
    (hne : k'' ≠ k) : getA (setA h k v) k'' = getA h k'' := by
  simp [getA, lookup_setA_ne _ _ _ _ hne]

theorem loadHoldings_aux (l acc : List (String × Int))
    (hup : ∀ e ∈ l, pyUpper e.1 = e.1)
    (hnd : (l.map Prod.fst).Nodup)
    (hdisj : ∀ e ∈ l, e.1 ∉ acc.map Prod.fst) :
    l.foldl (fun acc kv => setA acc (pyUpper kv.1) kv.2) acc = acc ++ l := by
  induction l generalizing acc with
  | nil => simp
  | cons kv t ih =>
    obtain ⟨k, v⟩ := kv
    have hupk : pyUpper k = k := hup (k, v) (List.mem_cons_self _ _)
    have hkacc : k ∉ acc.map Prod.fst := hdisj (k, v) (List.mem_cons_self _ _)
    have step : setA acc (pyUpper k) v = acc ++ [(k, v)] := by
      rw [hupk]
      exact setA_of_not_mem_keys acc k v hkacc
    rw [List.foldl_cons, step, ih (acc ++ [(k, v)])]
    · simp
    · exact fun e he => hup e (List.mem_cons_of_mem _ he)
    · rw [List.map_cons] at hnd
      exact hnd.of_cons
    · intro e he
      rw [List.map_append]
      intro hmem
      rcases List.mem_append.mp hmem with hmem | hmem
      · exact hdisj e (List.mem_cons_of_mem _ he) hmem
      · rw [List.map_cons] at hnd
        simp at hmem
        have hin : e.1 ∈ t.map Prod.fst := List.mem_map_of_mem Prod.fst he
        rw [hmem] at hin
        exact (List.nodup_cons.mp hnd).1 hin

/-- On a holdings dict whose keys are already uppercase and duplicate-free
(the invariant of every dict built by the `Portfolio` operations), the
holdings-filling loop of `load` rebuilds the dict unchanged. -/
theorem loadHoldings_id (h : List (String × Int))
    (hup : ∀ e ∈ h, pyUpper e.1 = e.1)
    (hnd : (h.map Prod.fst).Nodup) : loadHoldings h = h := by
  have := loadHoldings_aux h [] hup hnd (by simp)
  simpa [loadHoldings] using this

end StockSim

namespace StockSim

/-! ## Claim theorems: the Ledger (Portfolio) -/

/-- **C1.** For a valid buy (positive integer `qty`, positive `price`):
the operation fails with the insufficient-cash error exactly when
`price * qty > cash + 1e-9`; on success, `cash` decreases by exactly
`price * qty`, the holding of the uppercased symbol increases by `qty`
(the entry is created if absent, and every other symbol's quantity is
untouched), and one `BUY` trade record is appended to `trade_history`. -/
theorem buy_correct (p : Portfolio) (s : String) (price : ℚ) (qty : Int)
    (d : Option ℕ) (hq : 0 < qty) (hp : 0 < price) :
    (((p.buy (some s) price qty d).1 = Except.error "Not enough cash") ↔
      price * qty > p.cash + cashEps) ∧
    (price * qty > p.cash + cashEps → (p.buy (some s) price qty d).2 = p) ∧
    (price * qty ≤ p.cash + cashEps →
      (p.buy (some s) price qty d).1 = Except.ok () ∧
      (p.buy (some s) price qty d).2.cash = p.cash - price * qty ∧
      getA (p.buy (some s) price qty d).2.holdings (pyUpper s) =
        getA p.holdings (pyUpper s) + qty ∧
      (∀ k, k ≠ pyUpper s →
        getA (p.buy (some s) price qty d).2.holdings k =
          getA p.holdings k) ∧
      (lookupA (p.buy (some s) price qty d).2.holdings (pyUpper s)).isSome ∧
      (p.buy (some s) price qty d).2.trade_history = p.trade_history ++
        [{ date := formatDate d, type := "BUY", symbol := pyUpper s,
           qty := qty, price := price }]) := by
  have hq' : ¬ qty ≤ 0 := not_le.mpr hq
  by_cases hc : price * qty > p.cash + cashEps
  · constructor
    · simp [Portfolio.buy, hq', hc]
    · constructor
      · intro _
        simp [Portfolio.buy, hq', hc]
      · intro hle
        exact absurd hc (not_lt.mpr hle)
  · constructor
    · simp [Portfolio.buy, hq', hc]
    · constructor
      · intro hgt
        exact absurd hgt hc
      · intro _
        refine ⟨by simp [Portfolio.buy, hq', hc], ?_, ?_, ?_, ?_, ?_⟩
        · simp [Portfolio.buy, hq', hc]
        · simp only [Portfolio.buy, hq', hc, if_false, if_neg]
          simp [getA_setA_self]
        · intro k hk
          simp only [Portfolio.buy, hq', hc, if_false, if_neg]
          simp [getA_setA_ne _ _ _ _ hk]
        · simp only [Portfolio.buy, hq', hc, if_false, if_neg]
          simp [lookupA, lookup_setA_self]
        · simp [Portfolio.buy, hq', hc]

/-- Witness for `buy_correct` at `p = Portfolio.init`, symbol `"abc"`,
price `10`, qty `3`. -/
theorem buy_correct_witness :
    ((Portfolio.init.buy (some "abc") 10 3 (some 7)).1 =
        Except.ok ()) ∧
    (Portfolio.init.buy (some "abc") 10 3 (some 7)).2.cash =
        Portfolio.init.cash - 10 * 3 := by
  have h := buy_correct Portfolio.init "abc" 10 3 (some 7)
    (by decide) (by norm_num)
  have hle : (10 : ℚ) * (3 : Int) ≤ Portfolio.init.cash + cashEps := by
    simp [Portfolio.init, cashEps]
    norm_num
  exact ⟨(h.2.2 hle).1, (h.2.2 hle).2.1⟩

/-- **C2.** Selling more than the held quantity of the (uppercased)
symbol — an absent holding counting as 0 — fails with the
insufficient-shares error and leaves the whole portfolio unchanged. -/
theorem sell_insufficient_atomic (p : Portfolio) (s : String) (price : ℚ)
    (qty : Int) (d : Option ℕ) (hq : 0 < qty)
    (h : qty > getA p.holdings (pyUpper s)) :
    p.sell (some s) price qty d =
      (Except.error "Not enough shares to sell", p) := by
  have hq' : ¬ qty ≤ 0 := not_le.mpr hq
  simp [Portfolio.sell, hq', h]

/-- Witness for `sell_insufficient_atomic`: selling 3 shares of an
unheld symbol from a fresh portfolio. -/
theorem sell_insufficient_atomic_witness :
    Portfolio.init.sell (some "abc") 10 3 (some 7) =
      (Except.error "Not enough shares to sell", Portfolio.init) := by
  exact sell_insufficient_atomic Portfolio.init "abc" 10 3 (some 7)
    (by decide) (by decide)

/-- **C3 (counterexample).** The holdings-positivity invariant does not
survive `load`: a durable record storing quantity `0` for `"ABC"` loads
into a portfolio whose holdings contain a non-positive entry. -/
theorem load_breaks_holdings_positivity :
    ¬ holdingsPos (Portfolio.load
        { cash := none, holdings := some [("ABC", 0)], trade_history := none,
          trades := none }).holdings := by
  intro h
  have hmem : ("ABC", (0 : Int)) ∈ (Portfolio.load
      { cash := none, holdings := some [("ABC", 0)], trade_history := none,
        trades := none }).holdings := by
    simp [Portfolio.load, loadHoldings, setA, pyUpper]
  exact absurd (h _ hmem) (by decide)

/-- **C3 (amended).** After construction and after every completed `buy`
or `sell` — whether it succeeds or raises — every holdings entry is
strictly positive, provided every entry was strictly positive beforehand
(a position sold down to zero is removed, never stored); `load`, however,
copies stored integer quantities verbatim and does not enforce this
(see `load_breaks_holdings_positivity`). -/
theorem holdings_positivity_invariant (p : Portfolio) (s : Option String)
    (price : ℚ) (qty : Int) (d : Option ℕ)
    (hpos : holdingsPos p.holdings) :
    (∀ c : ℚ, holdingsPos (Portfolio.init c).holdings) ∧
    holdingsPos (p.buy s price qty d).2.holdings ∧
    holdingsPos (p.sell s price qty d).2.holdings := by
  unfold holdingsPos at hpos ⊢
  refine ⟨by intro c e he; simp [Portfolio.init] at he, ?_, ?_⟩
  · -- buy: every error branch returns `p`; success adds `qty > 0` on top of
    -- a non-negative prior quantity
    match s with
    | none => simpa [Portfolio.buy] using hpos
    | some s0 =>
      by_cases hq : qty ≤ 0
      · simpa [Portfolio.buy, hq] using hpos
      · by_cases hc : price * qty > p.cash + cashEps
        · simpa [Portfolio.buy, hq, hc] using hpos
        · intro e he
          simp only [Portfolio.buy, hq, hc, if_false, if_neg] at he
          rcases mem_setA _ _ _ _ he with hin | heq
          · exact hpos e hin
          · have hnn : 0 ≤ getA p.holdings (pyUpper s0) := by
              unfold getA
              cases hl : List.lookup (pyUpper s0) p.holdings with
              | none => simp
              | some v =>
                have : (pyUpper s0, v) ∈ p.holdings :=
                  lookup_mem _ _ _ hl
                exact le_of_lt (hpos _ this)
            have : 0 < getA p.holdings (pyUpper s0) + qty :=
              add_pos_of_nonneg_of_pos hnn (not_le.mp hq)
            rw [heq]
            exact this
  · -- sell: error branches return `p`; success either deletes the key or
    -- stores `owned - qty > 0`
    match s with
    | none => simpa [Portfolio.sell] using hpos
    | some s0 =>
      by_cases hq : qty ≤ 0
      · simpa [Portfolio.sell, hq] using hpos
      · by_cases ho : qty > getA p.holdings (pyUpper s0)
        · simpa [Portfolio.sell, hq, ho] using hpos
        · intro e he
          simp only [Portfolio.sell, hq, ho, if_false, if_neg] at he
          by_cases hz : getA p.holdings (pyUpper s0) ≤ qty
          · rw [if_pos (by omega : getA p.holdings (pyUpper s0) - qty ≤ 0)]
              at he
            by_cases hsm : (lookupA p.holdings (pyUpper s0)).isSome
            · rw [if_pos hsm] at he
              exact hpos e (mem_delA _ _ _ he)
            · rw [if_neg hsm] at he
              exact hpos e he
          · rw [if_neg (by omega : ¬ getA p.holdings (pyUpper s0) - qty ≤ 0)]
              at he
            rcases mem_setA _ _ _ _ he with hin | heq
            · exact hpos e hin
            · rw [heq]
              show 0 < getA p.holdings (pyUpper s0) - qty
              omega

/-- Witness for `holdings_positivity_invariant` at a portfolio holding
two shares of `"ABC"`. -/
theorem holdings_positivity_invariant_witness :
    holdingsPos ((Portfolio.mk 100 [("ABC", 2)] []).sell (some "ABC") 10 2
      (some 7)).2.holdings := by
  exact (holdings_positivity_invariant (Portfolio.mk 100 [("ABC", 2)] [])
    (some "ABC") 10 2 (some 7) (by decide)).2.2

/-- **C7.** `load` after `save` is the identity on the observable ledger
state (cash, holdings, trade history), for any state whose holdings keys
are uppercase and duplicate-free — the invariant of every dict the
`Portfolio` operations build. -/
theorem load_save_roundtrip (p : Portfolio)
    (hup : ∀ e ∈ p.holdings, pyUpper e.1 = e.1)
    (hnd : (p.holdings.map Prod.fst).Nodup) :
    Portfolio.load (Portfolio.save p) = p := by
  have hh : loadHoldings p.holdings = p.holdings := loadHoldings_id _ hup hnd
  have ht : loadTrades (Portfolio.save p) = p.trade_history := by
    unfold loadTrades Portfolio.save
    by_cases he : p.trade_history.isEmpty
    · simp [he, List.isEmpty_iff.mp he]
    · simp [he]
  cases p with
  | mk cash holdings trade_history =>
    simp_all [Portfolio.load, Portfolio.save]

/-- Witness for `load_save_roundtrip` at a concrete portfolio. -/
theorem load_save_roundtrip_witness :
    Portfolio.load (Portfolio.save
      (Portfolio.mk 5 [("ABC", 2), ("XY", 1)]
        [{ date := FDate.iso 3, type := "BUY", symbol := "ABC", qty := 2,
           price := 4 }])) =
      Portfolio.mk 5 [("ABC", 2), ("XY", 1)]
        [{ date := FDate.iso 3, type := "BUY", symbol := "ABC", qty := 2,
           price := 4 }] := by
  exact load_save_roundtrip _ (by decide) (by decide)

/-- **C9 (counterexample).** With both trade-log keys present and the
canonical one holding the empty list, `load` takes the legacy `"trades"`
value, not the canonical `"trade_history"` one: Python's `or` chain falls
through on the falsy empty list. -/
theorem load_trades_empty_canonical_falls_back :
    (Portfolio.load
      { cash := none, holdings := none, trade_history := some [],
        trades := some [sampleTrade] }).trade_history = [sampleTrade] := by
  simp [Portfolio.load, loadTrades]

/-- **C9 (amended).** Deserialization accepts either `"trade_history"` or
the legacy `"trades"`; a present non-empty canonical value always wins,
but an absent or empty canonical field falls back to the legacy field
(an empty legacy list again yielding `[]`). -/
theorem load_trades_key_preference (data : Record) :
    (∀ l : List Trade, data.trade_history = some l → l ≠ [] →
      (Portfolio.load data).trade_history = l) ∧
    ((data.trade_history = none ∨ data.trade_history = some []) →
      (Portfolio.load data).trade_history = data.trades.getD []) := by
  constructor
  · intro l hl hne
    simp [Portfolio.load, loadTrades, hl, List.isEmpty_iff, hne]
  · intro hcan
    rcases hcan with hcan | hcan <;>
      simp [Portfolio.load, loadTrades, hcan]

/-- Witness for `load_trades_key_preference`: a non-empty canonical field
wins over a different legacy value, an absent canonical field falls back
to the legacy value. -/
theorem load_trades_key_preference_witness :
    (Portfolio.load
      { cash := none, holdings := none, trade_history := some [sampleTrade],
        trades := some [] }).trade_history = [sampleTrade] ∧
    (Portfolio.load
      { cash := none, holdings := none, trade_history := none,
        trades := some [sampleTrade] }).trade_history = [sampleTrade] := by
  constructor
  · exact (load_trades_key_preference _).1 [sampleTrade] rfl (by decide)
  · exact (load_trades_key_preference _).2 (Or.inl rfl)

/-- **C10.** A present durable record lacking the `"cash"` field loads
with the default starting cash `10000.0`: the default applies per missing
field, not only in the absent-record bootstrap. -/
theorem load_default_cash (data : Record) (h : data.cash = none) :
    (Portfolio.load data).cash = 10000 := by
  simp [Portfolio.load, h]

/-- Witness for `load_default_cash` at a record with holdings but no
cash field. -/
theorem load_default_cash_witness :
    (Portfolio.load
      { cash := none, holdings := some [("ABC", 2)], trade_history := none,
        trades := none }).cash = 10000 := by
  exact load_default_cash _ rfl

end StockSim

namespace StockSim

/-! ### Deque, trace and day-loop lemmas -/

theorem truncC_of_le (h : List (ℕ × ℚ)) (hh : h.length ≤ dequeMaxlen) :
    truncC h = h := by
  simp [truncC, Nat.sub_eq_zero_of_le hh]

theorem dequeAppend_length_le (h : List (ℕ × ℚ)) (e : ℕ × ℚ) :
    (dequeAppend h e).length ≤ dequeMaxlen := by
  simp only [dequeAppend, truncC, List.length_drop, List.length_append]
  omega

theorem truncC_append (l l2 : List (ℕ × ℚ)) :
    truncC (truncC l ++ l2) = truncC (l ++ l2) := by
  unfold truncC
  rw [← List.drop_append_of_le_length (Nat.sub_le l.length dequeMaxlen)]
  rw [List.drop_drop]
  have harg : ∀ a b : ℕ, a = b → (l ++ l2).drop a = (l ++ l2).drop b :=
    fun a b hab => by rw [hab]
  apply harg
  simp only [List.length_drop, List.length_append]
  omega

theorem traceFrom_length (rexp : ℚ → ℚ) (mu sigma : ℚ) (p : ℚ) (d : ℕ)
    (epss : List ℚ) :
    (traceFrom rexp mu sigma p d epss).length = epss.length := by
  induction epss generalizing p d with
  | nil => simp [traceFrom]
  | cons e es ih => simp [traceFrom, ih]

theorem traceFrom_dates (rexp : ℚ → ℚ) (mu sigma : ℚ) (p : ℚ) (d : ℕ)
    (epss : List ℚ) (k : ℕ) (hk : k < epss.length) :
    ((traceFrom rexp mu sigma p d epss)[k]?).map Prod.fst =
      some (d + k + 1) := by
  induction epss generalizing p d k with
  | nil => simp at hk
  | cons e es ih =>
    cases k with
    | zero => simp [traceFrom]
    | succ k' =>
      simp only [traceFrom, List.getElem?_cons_succ]
      rw [ih (p * gbmFactor rexp mu sigma e) (d + 1) k' (by simpa using hk)]
      congr 2
      omega

theorem epsSeq_succ (gauss : ℕ → ℚ) (idx n j N : ℕ) :
    epsSeq gauss idx n j (N + 1) =
      gauss (idx + j) :: epsSeq gauss (idx + n) n j N := by
  unfold epsSeq
  rw [List.range_succ_eq_map]
  simp only [List.map_cons, List.map_map]
  congr 1
  · simp
  · apply List.map_eq_map_iff.mpr
    intro a _
    simp only [Function.comp_apply]
    have harg : idx + (a.succ * n + j) = idx + n + (a * n + j) := by
      rw [Nat.succ_mul]
      ring
    rw [harg]

theorem marketDay_date (rexp : ℚ → ℚ) (gauss : ℕ → ℚ) (m : Market)
    (idx : ℕ) : (marketDay rexp gauss m idx).1.date = m.date + 1 := rfl

theorem marketDay_length (rexp : ℚ → ℚ) (gauss : ℕ → ℚ) (m : Market)
    (idx : ℕ) :
    (marketDay rexp gauss m idx).1.stocks.length = m.stocks.length := by
  simp [marketDay]

theorem marketDay_idx (rexp : ℚ → ℚ) (gauss : ℕ → ℚ) (m : Market)
    (idx : ℕ) : (marketDay rexp gauss m idx).2 = idx + m.stocks.length := rfl

theorem marketDay_stock (rexp : ℚ → ℚ) (gauss : ℕ → ℚ) (m : Market)
    (idx j : ℕ) (sym : String) (st : Stock)
    (hj : m.stocks[j]? = some (sym, st)) :
    (marketDay rexp gauss m idx).1.stocks[j]? =
      some (sym, Stock.record (Stock.simulate_day rexp st (gauss (idx + j)))
        (m.date + 1)) := by
  simp [marketDay, List.getElem?_map, List.getElem?_enum, hj]

theorem marketDay_hist_le (rexp : ℚ → ℚ) (gauss : ℕ → ℚ) (m : Market)
    (idx : ℕ) (e : String × Stock)
    (he : e ∈ (marketDay rexp gauss m idx).1.stocks) :
    e.2.history.length ≤ dequeMaxlen := by
  simp only [marketDay] at he
  rcases List.mem_map.mp he with ⟨x, _, rfl⟩
  simp only [Stock.record]
  exact dequeAppend_length_le _ _

theorem iterDays_stock (rexp : ℚ → ℚ) (gauss : ℕ → ℚ) (N : ℕ) :
    ∀ (m : Market) (idx j : ℕ) (sym : String) (st : Stock),
    m.stocks[j]? = some (sym, st) →
    (∀ e ∈ m.stocks, e.2.history.length ≤ dequeMaxlen) →
    (iterDays rexp gauss N (m, idx)).1.date = m.date + N ∧
    (iterDays rexp gauss N (m, idx)).1.stocks.length = m.stocks.length ∧
    (iterDays rexp gauss N (m, idx)).2 = idx + N * m.stocks.length ∧
    (iterDays rexp gauss N (m, idx)).1.stocks[j]? = some (sym,
      { symbol := st.symbol
        price := gbmP rexp st.mu st.sigma st.price
          (epsSeq gauss idx m.stocks.length j N)
        mu := st.mu
        sigma := st.sigma
        history := truncC (st.history ++ traceFrom rexp st.mu st.sigma
          st.price m.date (epsSeq gauss idx m.stocks.length j N)) }) := by
  induction N with
  | zero =>
    intro m idx j sym st hj hlen
    have hle := hlen _ (List.getElem?_mem hj)
    refine ⟨by simp [iterDays], by simp [iterDays], by simp [iterDays], ?_⟩
    simp only [iterDays, hj, epsSeq, List.range_zero, List.map_nil]
    simp [gbmP, traceFrom, truncC_of_le _ hle]
  | succ N ih =>
    intro m idx j sym st hj hlen
    have hstep := marketDay_stock rexp gauss m idx j sym st hj
    have hlen1 : ∀ e ∈ (marketDay rexp gauss m idx).1.stocks,
        e.2.history.length ≤ dequeMaxlen :=
      fun e he => marketDay_hist_le rexp gauss m idx e he
    have hiter : iterDays rexp gauss (N + 1) (m, idx) =
        iterDays rexp gauss N
          ((marketDay rexp gauss m idx).1, idx + m.stocks.length) := by
    -- `iterDays (N+1) s = iterDays N (marketDay s.1 s.2)` and the RNG
    -- counter after one day is `idx + len`
      have : marketDay rexp gauss m idx =
          ((marketDay rexp gauss m idx).1, idx + m.stocks.length) := by
        rw [← marketDay_idx rexp gauss m idx]
      calc iterDays rexp gauss (N + 1) (m, idx)
          = iterDays rexp gauss N (marketDay rexp gauss m idx) := rfl
        _ = _ := by rw [this]
    obtain ⟨hd, hl, hi, hs⟩ := ih (marketDay rexp gauss m idx).1
      (idx + m.stocks.length) j sym
      (Stock.record (Stock.simulate_day rexp st (gauss (idx + j)))
        (m.date + 1))
      hstep hlen1
    rw [hiter]
    rw [marketDay_length] at hl hs hi
    rw [marketDay_date] at hd
    refine ⟨by rw [hd]; omega, hl, by rw [hi]; ring, ?_⟩
    rw [hs]
    simp only [Stock.record, Stock.simulate_day, epsSeq_succ, marketDay_date]
    simp [gbmP, traceFrom, dequeAppend, truncC_append, List.append_assoc]

end StockSim

namespace StockSim

/-! ## Claim theorems: the Market -/

/-- **C4.** After `simulate_days(N)` with `N ≥ 1` on a market whose
histories respect the deque capacity: the date has advanced by exactly `N`
calendar days, the set of instruments is unchanged in size, and every
instrument's history equals its old history with exactly `N` new
`(date, price)` entries appended (truncated to the deque capacity), dated
`date+1, ..., date+N` in chronological order, each produced by one GBM
step per instrument per day — the draws `epsSeq` are consumed in day-major
order, so day `k` is fully applied to all instruments before day `k+1`. -/
theorem advance_spec (rexp : ℚ → ℚ) (gauss : ℕ → ℚ) (m : Market) (idx : ℕ)
    (N : ℕ) (hN : 1 ≤ N)
    (hlen : ∀ e ∈ m.stocks, e.2.history.length ≤ dequeMaxlen)
    (j : ℕ) (sym : String) (st : Stock)
    (hj : m.stocks[j]? = some (sym, st)) :
    (Market.simulate_days rexp gauss m idx (N : Int)).1.date = m.date + N ∧
    (Market.simulate_days rexp gauss m idx (N : Int)).1.stocks.length =
      m.stocks.length ∧
    (Market.simulate_days rexp gauss m idx (N : Int)).1.stocks[j]? =
      some (sym,
        { symbol := st.symbol
          price := gbmP rexp st.mu st.sigma st.price
            (epsSeq gauss idx m.stocks.length j N)
          mu := st.mu
          sigma := st.sigma
          history := truncC (st.history ++ traceFrom rexp st.mu st.sigma
            st.price m.date (epsSeq gauss idx m.stocks.length j N)) }) ∧
    (traceFrom rexp st.mu st.sigma st.price m.date
      (epsSeq gauss idx m.stocks.length j N)).length = N ∧
    (∀ k, k < N →
      ((traceFrom rexp st.mu st.sigma st.price m.date
        (epsSeq gauss idx m.stocks.length j N))[k]?).map Prod.fst =
        some (m.date + k + 1)) := by
  have hpos : ¬ ((N : Int) ≤ 0) := by
    simp only [not_le]
    exact_mod_cast Nat.lt_of_lt_of_le Nat.zero_lt_one hN
  have hred : Market.simulate_days rexp gauss m idx (N : Int) =
      iterDays rexp gauss N (m, idx) := by
    simp [Market.simulate_days, hpos]
  obtain ⟨hd, hl, _, hs⟩ := iterDays_stock rexp gauss N m idx j sym st hj hlen
  have hel : (epsSeq gauss idx m.stocks.length j N).length = N := by
    simp [epsSeq]
  refine ⟨by rw [hred]; exact hd, by rw [hred]; exact hl,
    by rw [hred]; exact hs, ?_, ?_⟩
  · rw [traceFrom_length, hel]
  · intro k hk
    exact traceFrom_dates rexp st.mu st.sigma st.price m.date _ k
      (by rw [hel]; exact hk)

/-- Witness for `advance_spec`: one day on a one-stock market starting
with an empty history. -/
theorem advance_spec_witness :
    (Market.simulate_days (fun _ => 1) (fun _ => 0) marketA 0
      ((1 : ℕ) : Int)).1.date = marketA.date + 1 := by
  have h := advance_spec (fun _ => 1) (fun _ => 0) marketA 0 1 (by decide)
    (by
      intro e he
      simp [marketA] at he
      rw [he]
      simp [stockA, dequeMaxlen])
    0 "A" stockA rfl
  exact h.1

/-- **C5.** `addInstrument` (the `api_addstock` pipeline) with a symbol
already present in the market — compared case-insensitively after
normalisation to uppercase — fails with the duplicate-symbol error and
leaves the market unchanged. -/
theorem addstock_duplicate_rejected (m : Market) (sIn : Option String)
    (pIn muIn sigmaIn : Option ℚ)
    (hne : pyUpper (pyStrip (sIn.getD "")) ≠ "")
    (hdup : (lookupA m.stocks (pyUpper (pyStrip (sIn.getD "")))).isSome) :
    api_addstock m sIn pIn muIn sigmaIn =
      (Except.error "stock already exists", m) := by
  simp [api_addstock, hne, hdup]

/-- Witness for `addstock_duplicate_rejected`: re-adding `"abc "` to a
market that lists `"ABC"`. -/
theorem addstock_duplicate_rejected_witness :
    api_addstock marketABC (some "abc ") (some 50) none none =
      (Except.error "stock already exists", marketABC) := by
  exact addstock_duplicate_rejected _ _ _ _ _ (by decide) (by decide)

/-- **C6.** The advance operation (the `api_next` pipeline) on any integer
`days < 1` fails with the invalid-duration error and leaves the market —
and the RNG position — unchanged, rather than succeeding or silently doing
nothing. -/
theorem api_next_invalid_days (rexp : ℚ → ℚ) (gauss : ℕ → ℚ) (m : Market)
    (idx : ℕ) (days : Int) (h : days < 1) :
    api_next rexp gauss m idx days =
      (Except.error "days must be >= 1", (m, idx)) := by
  simp [api_next, h]

/-- Witness for `api_next_invalid_days` at `days = 0` on an empty
market. -/
theorem api_next_invalid_days_witness :
    api_next (fun _ => 1) (fun _ => 0) { stocks := [], date := 0 } 0 0 =
      (Except.error "days must be >= 1",
        ({ stocks := [], date := 0 }, 0)) := by
  exact api_next_invalid_days _ _ _ _ 0 (by decide)

/-- **C8.** `Stock.__init__` performs no finiteness validation: called
with NaN price, `+inf` drift and `-inf` volatility it constructs the
instrument and stores the non-finite values verbatim, instead of failing
at creation time as the specification requires. -/
theorem stock_init_accepts_nonfinite :
    StockF.init "A" PyFloat.nan PyFloat.inf PyFloat.ninf =
      { symbol := "A", price := PyFloat.nan, mu := PyFloat.inf,
        sigma := PyFloat.ninf, history := [] } := by
  rfl

end StockSim
